import Mathlib

/-!
Verification development for the Rat25S front end: a shallow embedding of
`src/lexer.py` (tokenizer) and `src/parser.py` (recursive-descent syntax
checker), with theorems settling the specification claims.

The source text is modelled as a `List Char`.  The Python scanning loops walk
an index `i` through `src` and only ever look at `src[i:]`, so each loop is
embedded as a recursion over the remaining suffix of the character list; the
comment-and-whitespace skipper is embedded as the two-state machine the
source documents (state C0 outside comments, states C2/C3 inside).
Character predicates model Python's `str.isspace` / `str.isalpha` /
`str.isdigit` over the ASCII range the language uses.
-/

set_option maxHeartbeats 1600000
set_option maxRecDepth 8000

namespace Rat25

/-- Mirror of the Python `Token` dataclass: `kind`, `lexeme`, `line_number`. -/
structure Token where
  kind : String
  lexeme : String
  line_number : Nat := 1
deriving Repr, DecidableEq

/-- ASCII model of Python `str.isspace` on one character. -/
def pyIsSpace (c : Char) : Bool :=
  c = ' ' || c = '\t' || c = '\n' || c = '\x0b' || c = '\x0c' || c = '\r'

/-- Model of Python `str.isalpha` (ASCII letters). -/
def pyIsAlpha (c : Char) : Bool := c.isAlpha

/-- Model of Python `str.isdigit` (ASCII digits). -/
def pyIsDigit (c : Char) : Bool := c.isDigit

/-- Model of Python `str.isalnum` (ASCII letters and digits). -/
def pyIsAlnum (c : Char) : Bool := c.isAlpha || c.isDigit

/-- The reserved-word set `KEYWORDS` of the lexer. -/
def KEYWORDS : List String :=
  ["integer", "real", "boolean",
   "function", "if", "else", "endif",
   "while", "endwhile", "return",
   "scan", "print", "true", "false"]

/-- Multi-character operator table (matched before single characters). -/
def MULTI_CHAR_OPERATORS : List String := ["<=", ">=", "==", "<>", "!=", "=>"]

/-- Multi-character separator table. -/
def MULTI_CHAR_SEPARATORS : List String := ["$$"]

/-- Single-character operator set. -/
def SINGLE_CHAR_OPERATORS : List Char := ['=', '+', '-', '*', '/', '<', '>']

/-- Single-character separator set (includes a lone dollar sign). -/
def SINGLE_CHAR_SEPARATORS : List Char := ['(', ')', '\x7b', '\x7d', ';', ',', '$']

/-- Python `lexeme.lower()`. -/
def pyLower (s : String) : String := String.mk (s.toList.map Char.toLower)

/-- `is_keyword`: identifiers are case-insensitive per Rat25S spec. -/
def is_keyword (lexeme : String) : Bool := KEYWORDS.contains (pyLower lexeme)

/-- Python `src.startswith(lit, idx)`, with `rest = src[idx:]`. -/
def startsWithAt (rest : List Char) (lit : String) : Bool :=
  lit.toList.isPrefixOf rest

/-- The literal error token built by `skip_ws_and_comments` on end of input
    inside a comment (line number left at the dataclass default, to be
    overwritten by `tokenize`). -/
def untermTok : Token := { kind := "unknown", lexeme := "unterminated comment" }

/-- The comment-skipper machine of `skip_ws_and_comments`, one constructor
    case per FSM transition of the source.  `inComment = false` is state C0
    (whitespace loop), `inComment = true` is the comment body (states C2/C3,
    with the one-character lookahead for the closing asterisk-bracket pair
    folded into the list pattern, exactly as the Python loop folds it into
    `src[i] == '*' and src[i+1] == ']'`).  Returns the remaining suffix and,
    when end of input is reached inside a comment, the unterminated-comment
    error token. -/
def skipFSM : Bool → List Char → List Char × Option Token
  | false, '[' :: '*' :: r => skipFSM true r
  | false, c :: r => if pyIsSpace c then skipFSM false r else (c :: r, none)
  | false, [] => ([], none)
  | true, '*' :: ']' :: r => skipFSM false r
  | true, _ :: r => skipFSM true r
  | true, [] => ([], some untermTok)

/-- Mirror of `skip_ws_and_comments`: skip whitespace and comments starting
    from the suffix `rest` of the source (Python index state C0). -/
def skip_ws_and_comments (rest : List Char) : List Char × Option Token :=
  skipFSM false rest

/-- Characters that continue an identifier (letter, digit or underscore). -/
def identCont (c : Char) : Bool := pyIsAlnum c || c = '_'

/-- First match of the Python `startswith` table scan. -/
def matchTable (tbl : List String) (rest : List Char) : Option String :=
  tbl.find? (fun lit => startsWithAt rest lit)

/-- Stop condition of the unknown-token grouping loop: the current suffix
    begins a legal token (letter, digit, comment opener, multi-character
    operator or separator, or single-character operator or separator). -/
def isLegalStart (rest : List Char) : Bool :=
  match rest with
  | [] => false
  | c :: _ =>
    pyIsAlpha c || pyIsDigit c ||
    startsWithAt rest "[*" ||
    (MULTI_CHAR_OPERATORS ++ MULTI_CHAR_SEPARATORS).any (fun m => startsWithAt rest m) ||
    SINGLE_CHAR_OPERATORS.contains c || SINGLE_CHAR_SEPARATORS.contains c

/-- The unknown-token grouping loop: gather characters until whitespace or
    the start of a legal token; returns the gathered run and the remainder. -/
def scanUnknown : List Char → List Char × List Char
  | [] => ([], [])
  | c :: r =>
    if pyIsSpace c then ([], c :: r)
    else if isLegalStart (c :: r) then ([], c :: r)
    else
      let p := scanUnknown r
      (c :: p.1, p.2)

/-- Mirror of `lex_token`: skip whitespace and comments, then recognise one
    token; returns the token and the remaining suffix (the new index). -/
def lex_token (start : List Char) : Token × List Char :=
  match skip_ws_and_comments start with
  | (rest, some err) => (err, rest)
  | (rest, none) =>
    match rest with
    | [] => ({ kind := "eof", lexeme := "" }, [])
    | ch :: r =>
      if pyIsAlpha ch then
        -- Identifier / keyword FSM (S0 - S1)
        let lex := String.mk (ch :: r.takeWhile identCont)
        ({ kind := if is_keyword lex then "keyword" else "identifier", lexeme := lex },
         r.dropWhile identCont)
      else if pyIsDigit ch then
        -- Integer / real FSM (S0 - S3); the dot is consumed only when the
        -- character immediately after it is again a digit (one lookahead)
        let intDigits := r.takeWhile pyIsDigit
        match r.dropWhile pyIsDigit with
        | '.' :: d :: r3 =>
          if pyIsDigit d then
            ({ kind := "real",
               lexeme := String.mk (ch :: intDigits ++ '.' :: d :: r3.takeWhile pyIsDigit) },
             r3.dropWhile pyIsDigit)
          else
            ({ kind := "integer", lexeme := String.mk (ch :: intDigits) }, '.' :: d :: r3)
        | r2 => ({ kind := "integer", lexeme := String.mk (ch :: intDigits) }, r2)
      else
        match matchTable MULTI_CHAR_OPERATORS rest with
        | some lit => ({ kind := "operator", lexeme := lit }, rest.drop lit.length)
        | none =>
          match matchTable MULTI_CHAR_SEPARATORS rest with
          | some lit => ({ kind := "separator", lexeme := lit }, rest.drop lit.length)
          | none =>
            if SINGLE_CHAR_OPERATORS.contains ch then
              ({ kind := "operator", lexeme := String.mk [ch] }, r)
            else if SINGLE_CHAR_SEPARATORS.contains ch then
              ({ kind := "separator", lexeme := String.mk [ch] }, r)
            else
              -- Unknown-token grouping DFA; Python forces at least one
              -- character via `idx = max(idx, begin + 1)`
              let p := scanUnknown (ch :: r)
              if p.1.isEmpty then ({ kind := "unknown", lexeme := String.mk [ch] }, r)
              else ({ kind := "unknown", lexeme := String.mk p.1 }, p.2)

/-- Newlines in the region consumed between suffix `r` and its sub-suffix
    `r2` — Python's `for j in range(i, skipped_idx): if text[j] == '\n'`. -/
def countNLBetween (r r2 : List Char) : Nat :=
  (r.take (r.length - r2.length)).count '\n'

/-- The `tokenize` loop.  `fuel` bounds the number of iterations; it is a
    strict upper bound on the length of `rest` at every call (established by
    `tokenize` below and preserved because every iteration consumes at least
    one character), so the out-of-fuel case is unreachable.  `line` is the
    running `current_line` counter; exactly as in the source, each produced
    token is stamped with the counter value saved before the iteration's
    whitespace-and-comment skip, while the final eof token is stamped with
    the fully updated counter. -/
def tokenizeAux : Nat → List Char → Nat → List Token
  | _, [], line => [{ kind := "eof", lexeme := "", line_number := line }]
  | 0, _ :: _, _ => []
  | fuel + 1, c :: r, line =>
    let rest := c :: r
    let s := skip_ws_and_comments rest
    let line2 := line + countNLBetween rest s.1
    match s.2 with
    | some e => { e with line_number := line } :: tokenizeAux fuel s.1 line2
    | none =>
      match s.1 with
      | [] => [{ kind := "eof", lexeme := "", line_number := line2 }]
      | c2 :: r2 =>
        let lt := lex_token (c2 :: r2)
        let line3 := line2 + countNLBetween (c2 :: r2) lt.2
        if lt.1.kind = "eof" then [{ lt.1 with line_number := line }]
        else { lt.1 with line_number := line } :: tokenizeAux fuel lt.2 line3

/-- Mirror of `tokenize`: scan the whole text from line 1. -/
def tokenize (text : List Char) : List Token := tokenizeAux (text.length + 1) text 1

/-! ### Lexer lemmas: progress, the unterminated-comment contract, and the
    shape of every tokenizer run. -/

theorem skipFSM_length (st : Bool) (rest : List Char) :
    (skipFSM st rest).1.length ≤ rest.length := by
  induction st, rest using skipFSM.induct <;> simp_all [skipFSM] <;> omega

theorem skipFSM_err (st : Bool) (rest : List Char) (e : Token)
    (h : (skipFSM st rest).2 = some e) :
    (skipFSM st rest).1 = [] ∧ e = untermTok := by
  induction st, rest using skipFSM.induct <;> simp_all [skipFSM]

theorem skipFSM_cons_step (c : Char) (r : List Char) :
    skipFSM false (c :: r) =
      if c = '[' ∧ r.head? = some '*' then skipFSM true r.tail
      else if pyIsSpace c then skipFSM false r
      else (c :: r, none) := by
  rw [skipFSM.eq_def]
  split
  next r1 heq =>
    simp only [List.cons.injEq] at heq
    obtain ⟨rfl, rfl⟩ := heq
    simp
  next =>
    rename_i hno hst heq
    simp only [List.cons.injEq] at heq
    obtain ⟨rfl, rfl⟩ := heq
    have hcond : ¬(c = '[' ∧ r.head? = some '*') := by
      rintro ⟨rfl, hh⟩
      cases r with
      | nil => simp at hh
      | cons a t =>
        simp only [List.head?_cons, Option.some.injEq] at hh
        exact hno t rfl (by rw [hh])
    rw [if_neg hcond]
  all_goals rename_i heq1 heq2
  all_goals first
    | exact absurd heq1 (by decide)
    | exact absurd heq2 (by simp)

theorem skipFSM_true_step (c : Char) (r : List Char) :
    skipFSM true (c :: r) =
      if c = '*' ∧ r.head? = some ']' then skipFSM false r.tail
      else skipFSM true r := by
  by_cases h1 : c = '*' ∧ r.head? = some ']'
  · obtain ⟨rfl, hh⟩ := h1
    cases r with
    | nil => simp at hh
    | cons a t =>
      simp only [List.head?_cons, Option.some.injEq] at hh
      subst hh
      simp [skipFSM]
  · rw [if_neg h1]
    rw [skipFSM.eq_def]
    split
    all_goals simp_all

theorem skipFSM_fix (st : Bool) (rest rest2 : List Char)
    (h : skipFSM st rest = (rest2, none)) :
    skipFSM false rest2 = (rest2, none) := by
  induction st, rest using skipFSM.induct with
  | case1 r ih => exact ih (by simpa only [skipFSM] using h)
  | case2 c r hne hsp ih =>
    have hcond : ¬(c = '[' ∧ r.head? = some '*') := by
      rintro ⟨rfl, hh⟩
      cases r with
      | nil => simp at hh
      | cons a t =>
        simp only [List.head?_cons, Option.some.injEq] at hh
        exact hne t rfl (by rw [hh])
    rw [skipFSM_cons_step, if_neg hcond, if_pos hsp] at h
    exact ih h
  | case3 c r hne hsp =>
    have hcond : ¬(c = '[' ∧ r.head? = some '*') := by
      rintro ⟨rfl, hh⟩
      cases r with
      | nil => simp at hh
      | cons a t =>
        simp only [List.head?_cons, Option.some.injEq] at hh
        exact hne t rfl (by rw [hh])
    rw [skipFSM_cons_step, if_neg hcond, if_neg (by simpa using hsp)] at h
    simp only [Prod.mk.injEq] at h
    obtain ⟨rfl, -⟩ := h
    rw [skipFSM_cons_step, if_neg hcond, if_neg (by simpa using hsp)]
  | case4 =>
    simp only [skipFSM, Prod.mk.injEq] at h
    obtain ⟨rfl, -⟩ := h
    rfl
  | case5 r ih => exact ih (by simpa only [skipFSM] using h)
  | case6 c r hne ih =>
    have hcond : ¬(c = '*' ∧ r.head? = some ']') := by
      rintro ⟨rfl, hh⟩
      cases r with
      | nil => simp at hh
      | cons a t =>
        simp only [List.head?_cons, Option.some.injEq] at hh
        exact hne t rfl (by rw [hh])
    rw [skipFSM_true_step, if_neg hcond] at h
    exact ih h
  | case7 => simp [skipFSM] at h

theorem scanUnknown_append (l : List Char) :
    (scanUnknown l).1 ++ (scanUnknown l).2 = l := by
  induction l with
  | nil => rfl
  | cons c r ih =>
    rw [scanUnknown.eq_def]
    split
    all_goals try split
    all_goals try split
    all_goals simp_all

theorem scanUnknown_cons_head (c : Char) (r : List Char)
    (h : (scanUnknown (c :: r)).1 ≠ []) :
    (scanUnknown (c :: r)).1.head? = some c := by
  rw [scanUnknown.eq_def] at h ⊢
  by_cases h1 : pyIsSpace c
  · simp [h1] at h
  · by_cases h2 : isLegalStart (c :: r)
    · simp [h1, h2] at h
    · simp [h1, h2]

theorem matchTable_two {tbl : List String} {rest : List Char} {lit : String}
    (htbl : tbl = MULTI_CHAR_OPERATORS ∨ tbl = MULTI_CHAR_SEPARATORS)
    (h : matchTable tbl rest = some lit) : lit.length = 2 := by
  have hm := List.mem_of_find?_eq_some h
  rcases htbl with rfl | rfl <;> fin_cases hm <;> rfl

/-- Forward progress of the token recognizer: on a nonempty suffix at least
    one character is consumed (also by the unknown-token grouping step). -/
theorem lex_token_shrink (rest : List Char) (hne : rest ≠ []) :
    (lex_token rest).2.length < rest.length := by
  have hlen0 : 0 < rest.length := List.length_pos.mpr hne
  unfold lex_token
  split
  next rest2 e hs =>
    rw [skip_ws_and_comments] at hs
    have h2 := skipFSM_err false rest e (by rw [hs])
    rw [hs] at h2
    have h3 : rest2 = [] := h2.1
    subst h3
    simpa using hlen0
  next rest2 hs =>
    rw [skip_ws_and_comments] at hs
    have hlen2 : rest2.length ≤ rest.length := by
      have hl := skipFSM_length false rest
      rw [hs] at hl
      simpa using hl
    split
    next => simpa using hlen0
    next ch r =>
      simp only [List.length_cons] at hlen2
      have hdwi := (List.dropWhile_sublist (p := identCont) (l := r)).length_le
      have hdwd := (List.dropWhile_sublist (p := pyIsDigit) (l := r)).length_le
      split
      · -- identifier / keyword
        simp only
        omega
      · split
        · -- number recognizer
          split
          next d r3 heq2 =>
            have hdw3 := (List.dropWhile_sublist (p := pyIsDigit) (l := r3)).length_le
            rw [heq2] at hdwd
            simp only [List.length_cons] at hdwd
            split
            · simp only
              omega
            · simp only [List.length_cons]
              omega
          all_goals simp_all
          all_goals omega
        · -- operator / separator / unknown
          split
          next lit hlit =>
            have h2 := matchTable_two (Or.inl rfl) hlit
            simp only [List.length_drop, List.length_cons, h2]
            omega
          next =>
            split
            next lit hlit =>
              have h2 := matchTable_two (Or.inr rfl) hlit
              simp only [List.length_drop, List.length_cons, h2]
              omega
            next =>
              split
              · simp only
                omega
              · split
                · simp only
                  omega
                · have happ := congrArg List.length (scanUnknown_append (ch :: r))
                  simp only [List.length_append, List.length_cons] at happ
                  simp only [List.isEmpty_iff]
                  split
                  · simp only
                    omega
                  · rename_i hne3
                    have hpos := List.length_pos.mpr hne3
                    simp only
                    omega

/-- A token produced by the recognizer proper (not by the comment skipper)
    is never the unterminated-comment error token: every unknown token built
    by the grouping DFA starts with a non-letter character, while the error
    message starts with a letter. -/
theorem lex_token_no_unterm (rest : List Char) (hne : rest ≠ [])
    (hfix : skip_ws_and_comments rest = (rest, none)) :
    ¬ ((lex_token rest).1.kind = "unknown" ∧
        (lex_token rest).1.lexeme = "unterminated comment") := by
  unfold lex_token
  split
  next rest2 e hs =>
    rw [hfix] at hs
    simp at hs
  next rest2 hs =>
    rw [hfix] at hs
    simp only [Prod.mk.injEq] at hs
    obtain ⟨rfl, -⟩ := hs
    split
    next => simp
    next ch r =>
      split
      next halpha =>
        simp only
        split <;> simp
      next halpha =>
        split
        next hdig =>
          simp only
          split
          · split <;> simp
          · simp
        next hdig =>
          split
          next lit hlit => simp
          next =>
            split
            next lit hlit => simp
            next =>
              split
              next hop => simp
              next hop =>
                split
                next hsep => simp
                next hsep =>
                  simp only [List.isEmpty_iff]
                  split
                  next hempty =>
                    rintro ⟨-, habs⟩
                    have h1 := congrArg String.length habs
                    simp [String.length] at h1
                  next hempty =>
                    rintro ⟨-, habs⟩
                    have hh := scanUnknown_cons_head ch r hempty
                    have hdata : (scanUnknown (ch :: r)).1 =
                        "unterminated comment".toList :=
                      congrArg String.data habs
                    rw [hdata] at hh
                    simp only [show ("unterminated comment".toList.head? = some 'u')
                      from rfl] at hh
                    have : ch = 'u' := by simpa using hh.symm
                    subst this
                    exact halpha (by decide)

theorem tokenizeAux_nil (fuel line : Nat) :
    tokenizeAux fuel [] line = [{ kind := "eof", lexeme := "", line_number := line }] := by
  cases fuel <;> rfl

/-- Shape of every tokenizer run with enough fuel: the produced sequence is a
    (possibly empty) run of non-eof tokens closed by exactly one eof token. -/
theorem tokenizeAux_shape (fuel : Nat) : ∀ (rest : List Char) (line : Nat),
    rest.length < fuel →
    ∃ ts t, tokenizeAux fuel rest line = ts ++ [t] ∧ t.kind = "eof" ∧
      ∀ u ∈ ts, u.kind ≠ "eof" := by
  induction fuel with
  | zero =>
    intro rest line h
    omega
  | succ fuel ih =>
    intro rest line hf
    cases rest with
    | nil =>
      exact ⟨[], _, rfl, rfl, by simp⟩
    | cons c r =>
      rw [tokenizeAux]
      simp only
      rcases hs : (skip_ws_and_comments (c :: r)) with ⟨rest2, err⟩
      have hlen2 : rest2.length ≤ r.length + 1 := by
        have hl := skipFSM_length false (c :: r)
        rw [skip_ws_and_comments] at hs
        rw [hs] at hl
        simpa using hl
      simp only [List.length_cons] at hf
      cases err with
      | some e =>
        simp only
        have herr := skipFSM_err false (c :: r) e
          (by rw [skip_ws_and_comments] at hs; rw [hs])
        rw [skip_ws_and_comments] at hs
        rw [hs] at herr
        have hr2 : rest2 = [] := herr.1
        subst hr2
        rw [tokenizeAux_nil]
        refine ⟨[{ e with line_number := line }], _, rfl, rfl, ?_⟩
        intro u hu
        simp only [List.mem_singleton] at hu
        subst hu
        have he : e = untermTok := herr.2
        subst he
        simp [untermTok]
      | none =>
        simp only
        cases rest2 with
        | nil => exact ⟨[], _, rfl, rfl, by simp⟩
        | cons c2 r2 =>
          simp only
          split
          next heof =>
            refine ⟨[], _, rfl, ?_, by simp⟩
            simpa using heof
          next heof =>
            have hshrink := lex_token_shrink (c2 :: r2) (by simp)
            obtain ⟨ts, t, hEq, hk, hall⟩ := ih (lex_token (c2 :: r2)).2 _
              (by simp only [List.length_cons] at hlen2 hshrink; omega)
            rw [hEq]
            refine ⟨{ (lex_token (c2 :: r2)).1 with line_number := line } :: ts, t,
              rfl, hk, ?_⟩
            intro u hu
            rcases List.mem_cons.mp hu with rfl | hu2
            · simpa using heof
            · exact hall u hu2

/-- Any unterminated-comment token in a tokenizer run with enough fuel is the
    second-to-last token, immediately followed by the final eof token. -/
theorem tokenizeAux_unterm (fuel : Nat) : ∀ (rest : List Char) (line k : Nat) (t : Token),
    rest.length < fuel →
    (tokenizeAux fuel rest line).get? k = some t →
    t.kind = "unknown" → t.lexeme = "unterminated comment" →
    (tokenizeAux fuel rest line).length = k + 2 ∧
      ∃ t2, (tokenizeAux fuel rest line).get? (k + 1) = some t2 ∧ t2.kind = "eof" := by
  induction fuel with
  | zero =>
    intro rest line k t h
    omega
  | succ fuel ih =>
    intro rest line k t hf hget hkind hlex
    cases rest with
    | nil =>
      rw [tokenizeAux_nil] at hget ⊢
      cases k with
      | zero =>
        simp only [List.get?] at hget
        cases hget
        simp at hkind
      | succ k => simp [List.get?] at hget
    | cons c r =>
      rw [tokenizeAux] at hget ⊢
      simp only at hget ⊢
      rcases hs : (skip_ws_and_comments (c :: r)) with ⟨rest2, err⟩
      rw [hs] at hget
      have hlen2 : rest2.length ≤ r.length + 1 := by
        have hl := skipFSM_length false (c :: r)
        rw [skip_ws_and_comments] at hs
        rw [hs] at hl
        simpa using hl
      simp only [List.length_cons] at hf
      cases err with
      | some e =>
        simp only at hget ⊢
        have herr := skipFSM_err false (c :: r) e
          (by rw [skip_ws_and_comments] at hs; rw [hs])
        rw [skip_ws_and_comments] at hs
        rw [hs] at herr
        have hr2 : rest2 = [] := herr.1
        subst hr2
        rw [tokenizeAux_nil] at hget ⊢
        cases k with
        | zero => simp
        | succ k =>
          cases k with
          | zero =>
            simp only [List.get?] at hget
            cases hget
            simp at hkind
          | succ k => simp [List.get?] at hget
      | none =>
        simp only at hget ⊢
        cases rest2 with
        | nil =>
          simp only at hget ⊢
          cases k with
          | zero =>
            simp only [List.get?] at hget
            cases hget
            simp at hkind
          | succ k => simp [List.get?] at hget
        | cons c2 r2 =>
          simp only at hget ⊢
          have hfix := skipFSM_fix false (c :: r) (c2 :: r2)
            (by rw [skip_ws_and_comments] at hs; exact hs)
          split at hget
          next heof =>
            cases k with
            | zero =>
              simp only [List.get?] at hget
              cases hget
              simp only at hkind
              rw [heof] at hkind
              simp at hkind
            | succ k => simp [List.get?] at hget
          next heof =>
            rw [if_neg heof]
            have hshrink := lex_token_shrink (c2 :: r2) (by simp)
            cases k with
            | zero =>
              simp only [List.get?] at hget
              cases hget
              exact absurd ⟨hkind, hlex⟩
                (lex_token_no_unterm (c2 :: r2) (by simp)
                  (by rw [skip_ws_and_comments]; exact hfix))
            | succ k =>
              simp only [List.get?] at hget
              obtain ⟨hL, t2, hg2, hk2⟩ := ih (lex_token (c2 :: r2)).2 _ k t
                (by simp only [List.length_cons] at hlen2 hshrink; omega)
                hget hkind hlex
              refine ⟨by simpa using hL, t2, by simpa [List.get?] using hg2, hk2⟩

/-! ## The parser (`src/parser.py`)

The parser's module-level mutable state — the cursor `pos` and the counter
`error_count` — is modelled as an explicit state record threaded through the
grammar procedures; the token sequence `tokens` is a fixed parameter.  The
rule-trace and error messages written to the output file and stderr are
output-only and are not part of the state.  Each grammar procedure returns
its final state bundled with the cursor fact (the cursor never moves
backwards) that the termination measure needs. -/

/-- The mutable parser state: cursor `pos` and diagnostic count `errs`
    (`error_count` in the source). -/
structure PState where
  pos : Nat
  errs : Nat
deriving Repr, DecidableEq

/-- Mirror of `current()`: the token under the cursor, or a synthetic eof
    token carrying `tokens[-1].line_number` (1 for an empty sequence) when
    the cursor is at or past the end. -/
def current (tks : List Token) (s : PState) : Token :=
  if s.pos < tks.length then tks.getD s.pos { kind := "", lexeme := "" }
  else
    { kind := "eof", lexeme := "",
      line_number := match tks.getLast? with | some t => t.line_number | none => 1 }

/-- Mirror of `advance()`: consume the current token (the token printing is
    output-only). -/
def advance (s : PState) : PState := { s with pos := s.pos + 1 }

/-- Mirror of `error(msg)`: record one diagnostic and skip the offending
    token (the message itself goes to the output streams only). -/
def error (msg : String) (s : PState) : PState :=
  let _ := msg
  { pos := s.pos + 1, errs := s.errs + 1 }

/-- Mirror of `expect(kind, lexeme)`: on a kind (and, when given, lexeme)
    match consume the token, otherwise raise a syntax error — which itself
    consumes one token. -/
def expect (tks : List Token) (kind : String) (lexeme : Option String) (s : PState) :
    PState :=
  if (current tks s).kind ≠ kind ∨ (lexeme ≠ none ∧ some (current tks s).lexeme ≠ lexeme) then
    error ("expected " ++ kind) s
  else advance s

theorem expect_pos (tks : List Token) (kind : String) (lexeme : Option String)
    (s : PState) : (expect tks kind lexeme s).pos = s.pos + 1 := by
  unfold expect
  split <;> rfl

/-- `expect` bundled with its cursor fact, for use in the grammar bodies. -/
def expectT (tks : List Token) (kind : String) (lexeme : Option String) (s : PState) :
    { t : PState // t.pos = s.pos + 1 } :=
  ⟨expect tks kind lexeme s, expect_pos tks kind lexeme s⟩

/-- `advance` bundled with its cursor fact. -/
def advanceT (s : PState) : { t : PState // t.pos = s.pos + 1 } :=
  ⟨advance s, rfl⟩

/-- `error` bundled with its cursor fact. -/
def errorT (msg : String) (s : PState) : { t : PState // t.pos = s.pos + 1 } :=
  ⟨error msg s, rfl⟩

/-- Reading a kind other than `eof` under the cursor means the cursor is
    inside the sequence (past the end, `current` returns the synthetic eof). -/
theorem pos_lt_of_kind_ne (tks : List Token) (s : PState)
    (h : (current tks s).kind ≠ "eof") : s.pos < tks.length := by
  by_contra hge
  apply h
  unfold current
  rw [if_neg hge]

/-- Reading a nonempty lexeme under the cursor means the cursor is inside
    the sequence (the synthetic eof carries an empty lexeme). -/
theorem pos_lt_of_lexeme_ne (tks : List Token) (s : PState)
    (h : (current tks s).lexeme ≠ "") : s.pos < tks.length := by
  by_contra hge
  apply h
  unfold current
  rw [if_neg hge]

/-- Termination measure for the grammar procedures, parametrised by two
    per-procedure ranks below 1000: while the cursor is inside the token
    sequence the measure is dominated by the number of unread tokens (rank
    `r1` breaks ties between procedures called at the same cursor); once the
    cursor is past the end every guard sees the synthetic eof and the
    procedures unwind through the acyclic rank order `r2`. -/
def pmeas (L r1 r2 : Nat) (s : PState) : Nat :=
  if s.pos ≤ L then (L + 2 - s.pos) * 1000 + r1 else r2

theorem pmeas_A (L a b r1 r2 : Nat) (s t : PState) (ha : a < 1000) (hb : b < 1000)
    (hL : s.pos ≤ L) (hpos : s.pos < t.pos) : pmeas L a b t < pmeas L r1 r2 s := by
  unfold pmeas
  split <;> (try split) <;> omega

theorem pmeas_B (L a b r1 r2 : Nat) (s t : PState) (ha : a < 1000) (hb : b < 1000)
    (hbr : b < r2) (hpos : s.pos < t.pos) : pmeas L a b t < pmeas L r1 r2 s := by
  unfold pmeas
  split <;> (try split) <;> omega

theorem pmeas_same (L a b r1 r2 : Nat) (s : PState) (hL : s.pos ≤ L) (har : a < r1) :
    pmeas L a b s < pmeas L r1 r2 s := by
  unfold pmeas
  split <;> (try split) <;> omega

theorem pmeas_E (L a b r1 r2 : Nat) (s t : PState) (ha : a < 1000) (hb : b < 1000)
    (har : a < r1) (hbr : b < r2) (hpos : s.pos ≤ t.pos) :
    pmeas L a b t < pmeas L r1 r2 s := by
  unfold pmeas
  split <;> (try split) <;> omega

/-! ### Grammar procedures (after left-factoring), one per non-terminal.

Each returns the final state bundled with its cursor fact: procedures that
always consume at least one token return `s.pos < t.pos`, the optional /
list-tail procedures return `s.pos ≤ t.pos`.  The per-procedure rank pairs
passed to `pmeas` are chosen so that every same-cursor call strictly drops
the first rank and every call that can happen with the cursor past the end
of the sequence strictly drops the second; `decreasing_by` discharges each
call edge with one of the four `pmeas` lemmas. -/

mutual

/-- R1: Rat25S ::= $$ OptFunctionDefinitions $$ OptDeclarationList $$ StatementList $$ eof -/
def Rat25S (tks : List Token) (s : PState) : { t : PState // s.pos < t.pos } :=
  let ⟨s1, h1⟩ := expectT tks "separator" (some "$$") s
  let ⟨s2, h2⟩ := OptFunctionDefinitions tks s1
  let ⟨s3, h3⟩ := expectT tks "separator" (some "$$") s2
  let ⟨s4, h4⟩ := OptDeclarationList tks s3
  let ⟨s5, h5⟩ := expectT tks "separator" (some "$$") s4
  let ⟨s6, h6⟩ := StatementList tks s5
  let ⟨s7, h7⟩ := expectT tks "separator" (some "$$") s6
  let ⟨s8, h8⟩ := expectT tks "eof" none s7
  ⟨s8, by omega⟩

/-- R2 -/
def OptFunctionDefinitions (tks : List Token) (s : PState) :
    { t : PState // s.pos ≤ t.pos } :=
  if h : (current tks s).lexeme = "function" then
    let ⟨s1, h1⟩ := FunctionDefinitions tks s
    ⟨s1, by omega⟩
  else ⟨s, by omega⟩

/-- R3 -/
def FunctionDefinitions (tks : List Token) (s : PState) :
    { t : PState // s.pos < t.pos } :=
  let ⟨s1, h1⟩ := Function tks s
  let ⟨s2, h2⟩ := FunctionDefinitionsPrime tks s1
  ⟨s2, by omega⟩
termination_by pmeas tks.length 85 95 s
decreasing_by
  exact pmeas_B _ _ _ _ _ _ _ (by norm_num) (by norm_num) (by norm_num) (by omega)

def FunctionDefinitionsPrime (tks : List Token) (s : PState) :
    { t : PState // s.pos ≤ t.pos } :=
  if h : (current tks s).lexeme = "function" then
    let ⟨s1, h1⟩ := FunctionDefinitions tks s
    ⟨s1, by omega⟩
  else ⟨s, by omega⟩
termination_by pmeas tks.length 91 85 s
decreasing_by
  have hp := pos_lt_of_lexeme_ne tks s (by rw [h]; decide)
  exact pmeas_same _ _ _ _ _ _ (by omega) (by norm_num)

/-- R4 -/
def Function (tks : List Token) (s : PState) : { t : PState // s.pos < t.pos } :=
  let ⟨s1, h1⟩ := expectT tks "keyword" (some "function") s
  let ⟨s2, h2⟩ := expectT tks "identifier" none s1
  let ⟨s3, h3⟩ := expectT tks "separator" (some "(") s2
  let ⟨s4, h4⟩ := OptParameterList tks s3
  let ⟨s5, h5⟩ := expectT tks "separator" (some ")") s4
  let ⟨s6, h6⟩ := OptDeclarationList tks s5
  let ⟨s7, h7⟩ := Body tks s6
  ⟨s7, by omega⟩

/-- R5 - R8 -/
def OptParameterList (tks : List Token) (s : PState) :
    { t : PState // s.pos ≤ t.pos } :=
  if h : (current tks s).kind = "identifier" then
    let ⟨s1, h1⟩ := ParameterList tks s
    ⟨s1, by omega⟩
  else ⟨s, by omega⟩

def ParameterList (tks : List Token) (s : PState) : { t : PState // s.pos < t.pos } :=
  let ⟨s1, h1⟩ := Parameter tks s
  let ⟨s2, h2⟩ := ParameterListPrime tks s1
  ⟨s2, by omega⟩

def ParameterListPrime (tks : List Token) (s : PState) :
    { t : PState // s.pos ≤ t.pos } :=
  if h : (current tks s).lexeme = "," then
    let ⟨s1, h1⟩ := expectT tks "separator" (some ",") s
    let ⟨s2, h2⟩ := Parameter tks s1
    if h3 : (current tks s2).lexeme = "," then
      let ⟨s4, h4⟩ := ParameterListPrime tks s2
      ⟨s4, by omega⟩
    else ⟨s2, by omega⟩
  else ⟨s, by omega⟩
termination_by pmeas tks.length 64 65 s
decreasing_by
  have hp := pos_lt_of_lexeme_ne tks s (by rw [h]; decide)
  exact pmeas_A _ _ _ _ _ _ _ (by norm_num) (by norm_num) (by omega) (by omega)

def Parameter (tks : List Token) (s : PState) : { t : PState // s.pos < t.pos } :=
  let ⟨s1, h1⟩ := IDs tks s
  let ⟨s2, h2⟩ := Qualifier tks s1
  ⟨s2, by omega⟩

def Qualifier (tks : List Token) (s : PState) : { t : PState // s.pos < t.pos } :=
  if h : (current tks s).lexeme ∈ (["integer", "boolean", "real"] : List String) then
    let ⟨s1, h1⟩ := advanceT s
    ⟨s1, by omega⟩
  else
    let ⟨s1, h1⟩ := errorT "qualifier (integer/boolean/real) expected" s
    ⟨s1, by omega⟩

/-- R9 -/
def Body (tks : List Token) (s : PState) : { t : PState // s.pos < t.pos } :=
  let ⟨s1, h1⟩ := expectT tks "separator" (some "\x7b") s
  let ⟨s2, h2⟩ := StatementList tks s1
  let ⟨s3, h3⟩ := expectT tks "separator" (some "\x7d") s2
  ⟨s3, by omega⟩

/-- R10 - R13 -/
def OptDeclarationList (tks : List Token) (s : PState) :
    { t : PState // s.pos ≤ t.pos } :=
  if h : (current tks s).lexeme ∈ (["integer", "boolean", "real"] : List String) then
    let ⟨s1, h1⟩ := DeclarationList tks s
    ⟨s1, by omega⟩
  else ⟨s, by omega⟩

def DeclarationList (tks : List Token) (s : PState) : { t : PState // s.pos < t.pos } :=
  let ⟨s1, h1⟩ := Declaration tks s
  let ⟨s2, h2⟩ := expectT tks "separator" (some ";") s1
  let ⟨s3, h3⟩ := DeclarationListPrime tks s2
  ⟨s3, by omega⟩
termination_by pmeas tks.length 72 70 s
decreasing_by
  exact pmeas_B _ _ _ _ _ _ _ (by norm_num) (by norm_num) (by norm_num) (by omega)

def DeclarationListPrime (tks : List Token) (s : PState) :
    { t : PState // s.pos ≤ t.pos } :=
  if h : (current tks s).lexeme ∈ (["integer", "boolean", "real"] : List String) then
    let ⟨s1, h1⟩ := DeclarationList tks s
    ⟨s1, by omega⟩
  else ⟨s, by omega⟩
termination_by pmeas tks.length 76 65 s
decreasing_by
  have hp := pos_lt_of_lexeme_ne tks s
    (fun he => by rw [he] at h; exact absurd h (by decide))
  exact pmeas_same _ _ _ _ _ _ (by omega) (by norm_num)

def Declaration (tks : List Token) (s : PState) : { t : PState // s.pos < t.pos } :=
  let ⟨s1, h1⟩ := Qualifier tks s
  let ⟨s2, h2⟩ := IDs tks s1
  ⟨s2, by omega⟩

def IDs (tks : List Token) (s : PState) : { t : PState // s.pos < t.pos } :=
  let ⟨s1, h1⟩ := expectT tks "identifier" none s
  let ⟨s2, h2⟩ := IDsPrime tks s1
  ⟨s2, by omega⟩

def IDsPrime (tks : List Token) (s : PState) : { t : PState // s.pos ≤ t.pos } :=
  if h : (current tks s).lexeme = "," then
    let ⟨s1, h1⟩ := expectT tks "separator" (some ",") s
    let ⟨s2, h2⟩ := expectT tks "identifier" none s1
    if h3 : (current tks s2).lexeme = "," then
      let ⟨s4, h4⟩ := IDsPrime tks s2
      ⟨s4, by omega⟩
    else ⟨s2, by omega⟩
  else ⟨s, by omega⟩
termination_by pmeas tks.length 19 24 s
decreasing_by
  have hp := pos_lt_of_lexeme_ne tks s (by rw [h]; decide)
  exact pmeas_A _ _ _ _ _ _ _ (by norm_num) (by norm_num) (by omega) (by omega)

/-- R14, R15 -/
def StatementList (tks : List Token) (s : PState) : { t : PState // s.pos ≤ t.pos } :=
  if h : ((current tks s).kind = "separator" ∧
        (current tks s).lexeme ∈ (["\x7d", "$$"] : List String)) ∨
      (current tks s).kind = "eof" then
    ⟨s, by omega⟩
  else
    let ⟨s1, h1⟩ := Statement tks s
    let ⟨s2, h2⟩ := StatementListPrime tks s1
    ⟨s2, by omega⟩
termination_by pmeas tks.length 55 60 s
decreasing_by
  · have hp := pos_lt_of_kind_ne tks s (fun hk => h (Or.inr hk))
    exact pmeas_same _ _ _ _ _ _ (by omega) (by norm_num)
  · have hp := pos_lt_of_kind_ne tks s (fun hk => h (Or.inr hk))
    exact pmeas_A _ _ _ _ _ _ _ (by norm_num) (by norm_num) (by omega) (by omega)

def StatementListPrime (tks : List Token) (s : PState) :
    { t : PState // s.pos ≤ t.pos } :=
  if h : ((current tks s).kind = "separator" ∧
        (current tks s).lexeme ∈ (["\x7d", "$$"] : List String)) ∨
      (current tks s).kind = "eof" then
    ⟨s, by omega⟩
  else if h2 : ((current tks s).kind = "separator" ∧ (current tks s).lexeme = "\x7b") ∨
      (current tks s).kind = "identifier" ∨
      ((current tks s).kind = "keyword" ∧
        (current tks s).lexeme ∈ (["if", "while", "return", "scan", "print"] : List String)) then
    let ⟨s1, h1⟩ := Statement tks s
    let ⟨s2, h2b⟩ := StatementListPrime tks s1
    ⟨s2, by omega⟩
  else ⟨s, by omega⟩
termination_by pmeas tks.length 56 59 s
decreasing_by
  · have hp := pos_lt_of_kind_ne tks s
      (by rcases h2 with ⟨hk, -⟩ | hk | ⟨hk, -⟩ <;> rw [hk] <;> decide)
    exact pmeas_same _ _ _ _ _ _ (by omega) (by norm_num)
  · have hp := pos_lt_of_kind_ne tks s
      (by rcases h2 with ⟨hk, -⟩ | hk | ⟨hk, -⟩ <;> rw [hk] <;> decide)
    exact pmeas_A _ _ _ _ _ _ _ (by norm_num) (by norm_num) (by omega) (by omega)

def Statement (tks : List Token) (s : PState) : { t : PState // s.pos < t.pos } :=
  if h : (current tks s).kind = "separator" ∧ (current tks s).lexeme = "\x7b" then
    let ⟨s1, h1⟩ := Compound tks s
    ⟨s1, by omega⟩
  else if hid : (current tks s).kind = "identifier" then
    let ⟨s1, h1⟩ := Assign tks s
    ⟨s1, by omega⟩
  else if hkw : (current tks s).kind = "keyword" then
    if hif : (current tks s).lexeme = "if" then
      let ⟨s1, h1⟩ := If tks s
      ⟨s1, by omega⟩
    else if hwh : (current tks s).lexeme = "while" then
      let ⟨s1, h1⟩ := While tks s
      ⟨s1, by omega⟩
    else if hre : (current tks s).lexeme = "return" then
      let ⟨s1, h1⟩ := Return tks s
      ⟨s1, by omega⟩
    else if hpr : (current tks s).lexeme = "print" then
      let ⟨s1, h1⟩ := Print tks s
      ⟨s1, by omega⟩
    else if hsc : (current tks s).lexeme = "scan" then
      let ⟨s1, h1⟩ := Scan tks s
      ⟨s1, by omega⟩
    else
      let ⟨s1, h1⟩ := errorT "unexpected keyword in statement" s
      ⟨s1, by omega⟩
  else
    let ⟨s1, h1⟩ := errorT "invalid statement start" s
    ⟨s1, by omega⟩
termination_by pmeas tks.length 50 55 s
decreasing_by
  · have hp := pos_lt_of_kind_ne tks s (by rw [h.1]; decide)
    exact pmeas_same _ _ _ _ _ _ (by omega) (by norm_num)
  · have hp := pos_lt_of_kind_ne tks s (by rw [hkw]; decide)
    exact pmeas_same _ _ _ _ _ _ (by omega) (by norm_num)
  · have hp := pos_lt_of_kind_ne tks s (by rw [hkw]; decide)
    exact pmeas_same _ _ _ _ _ _ (by omega) (by norm_num)

/-- R16 -/
def Compound (tks : List Token) (s : PState) : { t : PState // s.pos < t.pos } :=
  let ⟨s1, h1⟩ := expectT tks "separator" (some "\x7b") s
  let ⟨s2, h2⟩ := StatementList tks s1
  let ⟨s3, h3⟩ := expectT tks "separator" (some "\x7d") s2
  ⟨s3, by omega⟩
termination_by pmeas tks.length 45 62 s
decreasing_by
  exact pmeas_B _ _ _ _ _ _ _ (by norm_num) (by norm_num) (by norm_num) (by omega)

/-- R17 -/
def Assign (tks : List Token) (s : PState) : { t : PState // s.pos < t.pos } :=
  let ⟨s1, h1⟩ := expectT tks "identifier" none s
  let ⟨s2, h2⟩ := expectT tks "operator" (some "=") s1
  let ⟨s3, h3⟩ := Expression tks s2
  let ⟨s4, h4⟩ := expectT tks "separator" (some ";") s3
  ⟨s4, by omega⟩

/-- R18 -/
def If (tks : List Token) (s : PState) : { t : PState // s.pos < t.pos } :=
  let ⟨s1, h1⟩ := expectT tks "keyword" (some "if") s
  let ⟨s2, h2⟩ := expectT tks "separator" (some "(") s1
  let ⟨s3, h3⟩ := Condition tks s2
  let ⟨s4, h4⟩ := expectT tks "separator" (some ")") s3
  let ⟨s5, h5⟩ := Statement tks s4
  let ⟨s6, h6⟩ := IfPrime tks s5
  ⟨s6, by omega⟩
termination_by pmeas tks.length 45 58 s
decreasing_by
  · exact pmeas_B _ _ _ _ _ _ _ (by norm_num) (by norm_num) (by norm_num) (by omega)
  · exact pmeas_B _ _ _ _ _ _ _ (by norm_num) (by norm_num) (by norm_num) (by omega)

def IfPrime (tks : List Token) (s : PState) : { t : PState // s.pos < t.pos } :=
  if h : (current tks s).lexeme = "else" then
    let ⟨s1, h1⟩ := expectT tks "keyword" (some "else") s
    let ⟨s2, h2⟩ := Statement tks s1
    let ⟨s3, h3⟩ := expectT tks "keyword" (some "endif") s2
    ⟨s3, by omega⟩
  else
    let ⟨s1, h1⟩ := expectT tks "keyword" (some "endif") s
    ⟨s1, by omega⟩
termination_by pmeas tks.length 44 54 s
decreasing_by
  have hp := pos_lt_of_lexeme_ne tks s (by rw [h]; decide)
  exact pmeas_A _ _ _ _ _ _ _ (by norm_num) (by norm_num) (by omega) (by omega)

/-- R19 -/
def Return (tks : List Token) (s : PState) : { t : PState // s.pos < t.pos } :=
  let ⟨s1, h1⟩ := expectT tks "keyword" (some "return") s
  if h : ¬ (current tks s1).lexeme = ";" then
    let ⟨s2, h2⟩ := ReturnPrime tks s1
    ⟨s2, by omega⟩
  else
    let ⟨s2, h2⟩ := expectT tks "separator" (some ";") s1
    ⟨s2, by omega⟩

def ReturnPrime (tks : List Token) (s : PState) : { t : PState // s.pos < t.pos } :=
  let ⟨s1, h1⟩ := Expression tks s
  let ⟨s2, h2⟩ := expectT tks "separator" (some ";") s1
  ⟨s2, by omega⟩

/-- R21 -/
def Print (tks : List Token) (s : PState) : { t : PState // s.pos < t.pos } :=
  let ⟨s1, h1⟩ := expectT tks "keyword" (some "print") s
  let ⟨s2, h2⟩ := expectT tks "separator" (some "(") s1
  let ⟨s3, h3⟩ := Expression tks s2
  let ⟨s4, h4⟩ := expectT tks "separator" (some ")") s3
  let ⟨s5, h5⟩ := expectT tks "separator" (some ";") s4
  ⟨s5, by omega⟩

def Scan (tks : List Token) (s : PState) : { t : PState // s.pos < t.pos } :=
  let ⟨s1, h1⟩ := expectT tks "keyword" (some "scan") s
  let ⟨s2, h2⟩ := expectT tks "separator" (some "(") s1
  let ⟨s3, h3⟩ := IDs tks s2
  let ⟨s4, h4⟩ := expectT tks "separator" (some ")") s3
  let ⟨s5, h5⟩ := expectT tks "separator" (some ";") s4
  ⟨s5, by omega⟩

/-- R22 -/
def While (tks : List Token) (s : PState) : { t : PState // s.pos < t.pos } :=
  let ⟨s1, h1⟩ := expectT tks "keyword" (some "while") s
  let ⟨s2, h2⟩ := expectT tks "separator" (some "(") s1
  let ⟨s3, h3⟩ := Condition tks s2
  let ⟨s4, h4⟩ := expectT tks "separator" (some ")") s3
  let ⟨s5, h5⟩ := Statement tks s4
  let ⟨s6, h6⟩ := expectT tks "keyword" (some "endwhile") s5
  ⟨s6, by omega⟩
termination_by pmeas tks.length 45 58 s
decreasing_by
  exact pmeas_B _ _ _ _ _ _ _ (by norm_num) (by norm_num) (by norm_num) (by omega)

/-- R23 -/
def Condition (tks : List Token) (s : PState) : { t : PState // s.pos < t.pos } :=
  let ⟨s1, h1⟩ := Expression tks s
  let ⟨s2, h2⟩ := Relop tks s1
  let ⟨s3, h3⟩ := Expression tks s2
  ⟨s3, by omega⟩

/-- R24 -/
def Relop (tks : List Token) (s : PState) : { t : PState // s.pos < t.pos } :=
  if h : (current tks s).kind = "operator" ∧
      (current tks s).lexeme ∈ (["==", "!=", "<", ">", "<=", "=>"] : List String) then
    let ⟨s1, h1⟩ := advanceT s
    ⟨s1, by omega⟩
  else
    let ⟨s1, h1⟩ := errorT "relational operator expected" s
    ⟨s1, by omega⟩

/-- Expression, Term, Factor, Primary with left-recursion removal -/
def Expression (tks : List Token) (s : PState) : { t : PState // s.pos < t.pos } :=
  let ⟨s1, h1⟩ := Term tks s
  let ⟨s2, h2⟩ := ExpressionPrime tks s1
  ⟨s2, by omega⟩
termination_by pmeas tks.length 35 45 s
decreasing_by
  · exact pmeas_E _ _ _ _ _ _ _ (by norm_num) (by norm_num) (by norm_num) (by norm_num)
      (by omega)
  · exact pmeas_B _ _ _ _ _ _ _ (by norm_num) (by norm_num) (by norm_num) (by omega)

def ExpressionPrime (tks : List Token) (s : PState) : { t : PState // s.pos ≤ t.pos } :=
  if h : (current tks s).kind = "operator" ∧
      (current tks s).lexeme ∈ (["+", "-"] : List String) then
    let ⟨s1, h1⟩ := advanceT s
    let ⟨s2, h2⟩ := Term tks s1
    let ⟨s3, h3⟩ := ExpressionPrime tks s2
    ⟨s3, by omega⟩
  else ⟨s, by omega⟩
termination_by pmeas tks.length 34 44 s
decreasing_by
  · have hp := pos_lt_of_kind_ne tks s (by rw [h.1]; decide)
    exact pmeas_A _ _ _ _ _ _ _ (by norm_num) (by norm_num) (by omega) (by omega)
  · have hp := pos_lt_of_kind_ne tks s (by rw [h.1]; decide)
    exact pmeas_A _ _ _ _ _ _ _ (by norm_num) (by norm_num) (by omega) (by omega)

def Term (tks : List Token) (s : PState) : { t : PState // s.pos < t.pos } :=
  let ⟨s1, h1⟩ := Factor tks s
  let ⟨s2, h2⟩ := TermPrime tks s1
  ⟨s2, by omega⟩
termination_by pmeas tks.length 32 40 s
decreasing_by
  · exact pmeas_E _ _ _ _ _ _ _ (by norm_num) (by norm_num) (by norm_num) (by norm_num)
      (by omega)
  · exact pmeas_B _ _ _ _ _ _ _ (by norm_num) (by norm_num) (by norm_num) (by omega)

def TermPrime (tks : List Token) (s : PState) : { t : PState // s.pos ≤ t.pos } :=
  if h : (current tks s).kind = "operator" ∧
      (current tks s).lexeme ∈ (["*", "/"] : List String) then
    let ⟨s1, h1⟩ := advanceT s
    let ⟨s2, h2⟩ := Factor tks s1
    let ⟨s3, h3⟩ := TermPrime tks s2
    ⟨s3, by omega⟩
  else ⟨s, by omega⟩
termination_by pmeas tks.length 31 39 s
decreasing_by
  · have hp := pos_lt_of_kind_ne tks s (by rw [h.1]; decide)
    exact pmeas_A _ _ _ _ _ _ _ (by norm_num) (by norm_num) (by omega) (by omega)
  · have hp := pos_lt_of_kind_ne tks s (by rw [h.1]; decide)
    exact pmeas_A _ _ _ _ _ _ _ (by norm_num) (by norm_num) (by omega) (by omega)

def Factor (tks : List Token) (s : PState) : { t : PState // s.pos < t.pos } :=
  if h : (current tks s).lexeme = "-" then
    let ⟨s1, h1⟩ := advanceT s
    let ⟨s2, h2⟩ := Primary tks s1
    ⟨s2, by omega⟩
  else
    let ⟨s1, h1⟩ := Primary tks s
    ⟨s1, by omega⟩
termination_by pmeas tks.length 30 35 s
decreasing_by
  · have hp := pos_lt_of_lexeme_ne tks s (by rw [h]; decide)
    exact pmeas_A _ _ _ _ _ _ _ (by norm_num) (by norm_num) (by omega) (by omega)
  · exact pmeas_E _ _ _ _ _ _ _ (by norm_num) (by norm_num) (by norm_num) (by norm_num)
      (by omega)

/-- R28: the function-call alternative peeks one token ahead exactly as the
    source does with `tokens[pos+1].lexeme` (for token sequences produced by
    `tokenize` the identifier guard puts the cursor strictly before the final
    eof token, so the peek stays in range). -/
def Primary (tks : List Token) (s : PState) : { t : PState // s.pos < t.pos } :=
  if h : (current tks s).kind = "identifier" then
    if hcall : (tks.getD (s.pos + 1) { kind := "", lexeme := "" }).lexeme = "(" then
      let ⟨s1, h1⟩ := expectT tks "identifier" none s
      let ⟨s2, h2⟩ := expectT tks "separator" (some "(") s1
      let ⟨s3, h3⟩ := IDs tks s2
      let ⟨s4, h4⟩ := expectT tks "separator" (some ")") s3
      ⟨s4, by omega⟩
    else
      let ⟨s1, h1⟩ := expectT tks "identifier" none s
      ⟨s1, by omega⟩
  else if hnum : (current tks s).kind = "integer" ∨ (current tks s).kind = "real" then
    let ⟨s1, h1⟩ := advanceT s
    ⟨s1, by omega⟩
  else if hbool : (current tks s).kind = "keyword" ∧
      (current tks s).lexeme ∈ (["true", "false"] : List String) then
    let ⟨s1, h1⟩ := advanceT s
    ⟨s1, by omega⟩
  else if hpar : (current tks s).kind = "separator" ∧ (current tks s).lexeme = "(" then
    let ⟨s1, h1⟩ := expectT tks "separator" (some "(") s
    let ⟨s2, h2⟩ := Expression tks s1
    let ⟨s3, h3⟩ := expectT tks "separator" (some ")") s2
    ⟨s3, by omega⟩
  else
    let ⟨s1, h1⟩ := errorT "invalid primary" s
    ⟨s1, by omega⟩
termination_by pmeas tks.length 25 30 s
decreasing_by
  have hp := pos_lt_of_kind_ne tks s (by rw [hpar.1]; decide)
  exact pmeas_A _ _ _ _ _ _ _ (by norm_num) (by norm_num) (by omega) (by omega)

end

/-- Mirror of the driver `parse`: tokenize, reset the cursor and the error
    count, and run the start symbol (the output file is output-only). -/
def parse (text : List Char) : PState :=
  (Rat25S (tokenize text) { pos := 0, errs := 0 }).val

/-! ## Claim theorems -/

/-- Claim C1 (code-bug evidence): each token should carry the 1-based line on
    which its lexeme begins, with skipped newlines counted toward it; but
    `tokenize` stamps tokens with the line counter saved before the
    preceding whitespace is skipped, so the identifier `b`, which begins on
    source line 2 of the input with a newline between the two identifiers,
    is stamped with line 1. -/
theorem claim_C1_line_stamp :
    tokenize "a\nb".toList =
      [{ kind := "identifier", lexeme := "a", line_number := 1 },
       { kind := "identifier", lexeme := "b", line_number := 1 },
       { kind := "eof", lexeme := "", line_number := 2 }] := by decide

/-- Claim C2 (code-bug evidence): on end of input inside a comment, exactly
    one unknown token with lexeme "unterminated comment" is emitted, but it
    is stamped with the line counter saved before the skip began (line 1
    here), not with the line on which scanning stopped (line 2, as the
    updated counter carried by the final eof token shows). -/
theorem claim_C2_unterminated_line :
    tokenize "[*\n".toList =
      [{ kind := "unknown", lexeme := "unterminated comment", line_number := 1 },
       { kind := "eof", lexeme := "", line_number := 2 }] := by decide

/-- Claim C3, counterexample to the claim as stated: past the end of the
    token sequence of "a\n", `current` returns a synthetic eof with line 2 —
    the line number of the final eof token — whereas the last real (non-eof)
    token of the sequence, the identifier `a`, has line number 1. -/
theorem claim_C3_counterexample :
    tokenize "a\n".toList =
      [{ kind := "identifier", lexeme := "a", line_number := 1 },
       { kind := "eof", lexeme := "", line_number := 2 }] ∧
    current (tokenize "a\n".toList) { pos := 2, errs := 0 } =
      { kind := "eof", lexeme := "", line_number := 2 } := by decide

/-- Claim C3 as amended: for every token sequence produced by `tokenize` and
    every cursor at or past its end, `current` returns — without any fatal
    fault — a synthetic eof token whose line number equals the line number
    of the final token of the sequence (the eof token), not that of the last
    non-eof token. -/
theorem claim_C3_amended (text : List Char) (s : PState)
    (h : s.pos ≥ (tokenize text).length) :
    ∃ t, (tokenize text).getLast? = some t ∧
      current (tokenize text) s =
        { kind := "eof", lexeme := "", line_number := t.line_number } := by
  obtain ⟨ts, tl, hEq, -, -⟩ := tokenizeAux_shape (text.length + 1) text 1 (by omega)
  rw [tokenize] at *
  have hlast : (tokenizeAux (text.length + 1) text 1).getLast? = some tl := by
    rw [hEq]
    simp
  refine ⟨tl, hlast, ?_⟩
  unfold current
  rw [if_neg (by omega), hlast]

theorem claim_C3_witness :
    ∃ t, (tokenize "a\n".toList).getLast? = some t ∧
      current (tokenize "a\n".toList) { pos := 2, errs := 0 } =
        { kind := "eof", lexeme := "", line_number := t.line_number } :=
  claim_C3_amended "a\n".toList { pos := 2, errs := 0 } (by decide)

/-- Claim C5: for every input text, the token list returned by `tokenize` is
    non-empty, its final element is an eof token, and no element before the
    final one has kind eof. -/
theorem claim_C5_eof_terminated (text : List Char) :
    ∃ ts t, tokenize text = ts ++ [t] ∧ t.kind = "eof" ∧
      ∀ u ∈ ts, u.kind ≠ "eof" :=
  tokenizeAux_shape (text.length + 1) text 1 (by omega)

theorem claim_C5_witness :
    ∃ ts t, tokenize "a".toList = ts ++ [t] ∧ t.kind = "eof" ∧
      ∀ u ∈ ts, u.kind ≠ "eof" :=
  claim_C5_eof_terminated "a".toList

/-- Claim C10: if `tokenize` emits an unknown token whose lexeme is
    "unterminated comment", that token is immediately followed by the final
    eof token: it sits at the second-to-last position and the next and last
    token has kind eof. -/
theorem claim_C10_unterm_then_eof (text : List Char) (k : Nat) (t : Token)
    (hget : (tokenize text).get? k = some t)
    (hkind : t.kind = "unknown") (hlex : t.lexeme = "unterminated comment") :
    (tokenize text).length = k + 2 ∧
      ∃ t2, (tokenize text).get? (k + 1) = some t2 ∧ t2.kind = "eof" :=
  tokenizeAux_unterm (text.length + 1) text 1 k t (by omega) hget hkind hlex

theorem claim_C10_witness :
    (tokenize "[* abc".toList).length = 0 + 2 ∧
      ∃ t2, (tokenize "[* abc".toList).get? (0 + 1) = some t2 ∧ t2.kind = "eof" :=
  claim_C10_unterm_then_eof "[* abc".toList 0
    { kind := "unknown", lexeme := "unterminated comment", line_number := 1 }
    (by decide) (by decide) (by decide)

/-- Digits are never letters (ASCII ranges are disjoint). -/
theorem pyIsDigit_not_alpha (c : Char) (h : pyIsDigit c = true) :
    pyIsAlpha c = false := by
  simp only [pyIsDigit, pyIsAlpha, Char.isDigit, Char.isAlpha, Char.isUpper,
    Char.isLower, Bool.and_eq_true, decide_eq_true_eq, Bool.or_eq_false_iff,
    Bool.and_eq_false_iff, decide_eq_false_iff_not, not_le] at h ⊢
  obtain ⟨h1, h2⟩ := h
  have n2 : c.val.toNat ≤ (57 : UInt32).toNat := h2
  have e2 : (57 : UInt32).toNat = 57 := rfl
  refine ⟨Or.inl fun hc => ?_, Or.inl fun hc => ?_⟩
  · have n3 : (65 : UInt32).toNat ≤ c.val.toNat := hc
    have e3 : (65 : UInt32).toNat = 65 := rfl
    omega
  · have n3 : (97 : UInt32).toNat ≤ c.val.toNat := hc
    have e3 : (97 : UInt32).toNat = 97 := rfl
    omega

/-- Claim C8: the number recognizer consumes a dot only when the character
    immediately following it is a digit: whenever the digit run is followed
    by a dot whose successor is not a digit, the result is an integer token
    holding just the digit run and the dot is left unconsumed; consequently
    tokenizing "123." yields integer "123", unknown ".", then eof. -/
theorem claim_C8_dot_lookahead :
    (∀ (ch : Char) (r : List Char), pyIsDigit ch = true →
      skip_ws_and_comments (ch :: r) = (ch :: r, none) →
      ∀ (d : Char) (r3 : List Char), r.dropWhile pyIsDigit = '.' :: d :: r3 →
        pyIsDigit d = false →
        lex_token (ch :: r) =
          ({ kind := "integer", lexeme := String.mk (ch :: r.takeWhile pyIsDigit) },
           '.' :: d :: r3)) ∧
    tokenize "123.".toList =
      [{ kind := "integer", lexeme := "123", line_number := 1 },
       { kind := "unknown", lexeme := ".", line_number := 1 },
       { kind := "eof", lexeme := "", line_number := 1 }] := by
  constructor
  · intro ch r hd hskip d r3 hdrop hnd
    unfold lex_token
    rw [hskip]
    simp only [pyIsDigit_not_alpha ch hd, Bool.false_eq_true, if_false, hd, if_true,
      hdrop, hnd]
  · decide

theorem claim_C8_witness :
    lex_token ('1' :: "2.x".toList) =
      ({ kind := "integer", lexeme := String.mk ('1' :: ("2.x".toList).takeWhile pyIsDigit) },
       '.' :: 'x' :: []) :=
  claim_C8_dot_lookahead.1 '1' "2.x".toList (by decide) (by decide) 'x' []
    (by decide) (by decide)

/-- Claim C6: `expect` always advances the cursor by exactly one position;
    when the current token's kind (and, if given, lexeme) matches it records
    no diagnostic, otherwise it records exactly one diagnostic — and in that
    case too exactly one token is consumed. -/
theorem claim_C6_expect (tks : List Token) (kind : String) (lexeme : Option String)
    (s : PState) :
    (expect tks kind lexeme s).pos = s.pos + 1 ∧
    (((current tks s).kind = kind ∧
        (lexeme = none ∨ lexeme = some (current tks s).lexeme)) →
      (expect tks kind lexeme s).errs = s.errs) ∧
    (¬ ((current tks s).kind = kind ∧
        (lexeme = none ∨ lexeme = some (current tks s).lexeme)) →
      (expect tks kind lexeme s).errs = s.errs + 1) := by
  refine ⟨expect_pos tks kind lexeme s, ?_, ?_⟩
  · rintro ⟨h1, h2⟩
    have hcond : ¬ ((current tks s).kind ≠ kind ∨
        (lexeme ≠ none ∧ some (current tks s).lexeme ≠ lexeme)) := by
      rintro (hk | ⟨hne, hsome⟩)
      · exact hk h1
      · rcases h2 with h2 | h2
        · exact hne h2
        · exact hsome h2.symm
    unfold expect
    rw [if_neg hcond]
    rfl
  · intro h
    have hcond : (current tks s).kind ≠ kind ∨
        (lexeme ≠ none ∧ some (current tks s).lexeme ≠ lexeme) := by
      by_contra hc
      rcases not_or.mp hc with ⟨ha, hb⟩
      apply h
      refine ⟨not_not.mp ha, ?_⟩
      cases lexeme with
      | none => exact Or.inl rfl
      | some l =>
        right
        rcases not_and_or.mp hb with hb1 | hb2
        · exact absurd (by simp) hb1
        · exact (not_not.mp hb2).symm
    unfold expect
    rw [if_pos hcond]
    rfl

theorem claim_C6_witness :
    (expect [] "separator" (some "$$") { pos := 0, errs := 0 }).pos = 0 + 1 ∧
    (expect [] "separator" (some "$$") { pos := 0, errs := 0 }).errs = 0 + 1 := by
  obtain ⟨h1, -, h3⟩ := claim_C6_expect [] "separator" (some "$$") { pos := 0, errs := 0 }
  exact ⟨h1, h3 (by decide)⟩

/-- Claim C9: both analyzers make guaranteed forward progress: the token
    recognizer consumes at least one character of any nonempty remaining
    input (also via the unknown-token grouping), every grammar procedure
    moves the cursor forward (strictly for the statement, expression and
    whole-program procedures, which consume at least one token), and every
    recorded syntax error, like every `expect`, consumes exactly one token;
    the analyzers are total functions, so every run completes. -/
theorem claim_C9_termination :
    (∀ rest : List Char, rest ≠ [] → (lex_token rest).2.length < rest.length) ∧
    (∀ (tks : List Token) (s : PState),
      s.pos < (Statement tks s).val.pos ∧
      s.pos < (Expression tks s).val.pos ∧
      s.pos ≤ (StatementList tks s).val.pos ∧
      s.pos < (Rat25S tks s).val.pos) ∧
    (∀ (msg : String) (s : PState), (error msg s).pos = s.pos + 1) ∧
    (∀ (tks : List Token) (k : String) (l : Option String) (s : PState),
      (expect tks k l s).pos = s.pos + 1) :=
  ⟨lex_token_shrink,
   fun tks s => ⟨(Statement tks s).2, (Expression tks s).2,
     (StatementList tks s).2, (Rat25S tks s).2⟩,
   fun _ _ => rfl,
   expect_pos⟩

theorem claim_C9_witness :
    (lex_token "@".toList).2.length < ("@".toList).length :=
  claim_C9_termination.1 "@".toList (by decide)

/-- The one-token sequence produced by tokenizing the empty input. -/
theorem tokenize_nil :
    tokenize ([] : List Char) = [{ kind := "eof", lexeme := "", line_number := 1 }] := by
  decide

/-- Claim C4, counterexample to the boundedness part of the claim as stated:
    parsing the empty input (a one-token sequence) drives the cursor to 5,
    strictly beyond the length of the token sequence. -/
theorem claim_C4_counterexample :
    (Rat25S (tokenize ([] : List Char)) { pos := 0, errs := 0 }).val =
      { pos := 5, errs := 4 } ∧
    (tokenize ([] : List Char)).length = 1 ∧
    (tokenize ([] : List Char)).length <
      (Rat25S (tokenize ([] : List Char)) { pos := 0, errs := 0 }).val.pos := by
  have he1 : expectT [{ kind := "eof", lexeme := "", line_number := 1 }] "separator"
      (some "$$") { pos := 0, errs := 0 } = ⟨{ pos := 1, errs := 1 }, by decide⟩ :=
    Subtype.ext (by decide)
  have hf1 : OptFunctionDefinitions [{ kind := "eof", lexeme := "", line_number := 1 }]
      { pos := 1, errs := 1 } = ⟨{ pos := 1, errs := 1 }, by decide⟩ :=
    Subtype.ext (by rw [OptFunctionDefinitions]; decide)
  have he2 : expectT [{ kind := "eof", lexeme := "", line_number := 1 }] "separator"
      (some "$$") { pos := 1, errs := 1 } = ⟨{ pos := 2, errs := 2 }, by decide⟩ :=
    Subtype.ext (by decide)
  have hf2 : OptDeclarationList [{ kind := "eof", lexeme := "", line_number := 1 }]
      { pos := 2, errs := 2 } = ⟨{ pos := 2, errs := 2 }, by decide⟩ :=
    Subtype.ext (by rw [OptDeclarationList]; decide)
  have he3 : expectT [{ kind := "eof", lexeme := "", line_number := 1 }] "separator"
      (some "$$") { pos := 2, errs := 2 } = ⟨{ pos := 3, errs := 3 }, by decide⟩ :=
    Subtype.ext (by decide)
  have hf3 : StatementList [{ kind := "eof", lexeme := "", line_number := 1 }]
      { pos := 3, errs := 3 } = ⟨{ pos := 3, errs := 3 }, by decide⟩ :=
    Subtype.ext (by rw [StatementList]; decide)
  have he4 : expectT [{ kind := "eof", lexeme := "", line_number := 1 }] "separator"
      (some "$$") { pos := 3, errs := 3 } = ⟨{ pos := 4, errs := 4 }, by decide⟩ :=
    Subtype.ext (by decide)
  have he5 : expectT [{ kind := "eof", lexeme := "", line_number := 1 }] "eof"
      none { pos := 4, errs := 4 } = ⟨{ pos := 5, errs := 4 }, by decide⟩ :=
    Subtype.ext (by decide)
  have h1 : (Rat25S [{ kind := "eof", lexeme := "", line_number := 1 }]
      { pos := 0, errs := 0 }).val = { pos := 5, errs := 4 } := by
    rw [Rat25S]
    simp only [he1, hf1, he2, hf2, he3, hf3, he4, he5]
    rw [he1, hf1, he2, hf2, he3, hf3, he4, he5]
  rw [tokenize_nil]
  exact ⟨h1, rfl, by rw [h1]; decide⟩

/-- Claim C4 as amended: the parser cursor is monotonically non-decreasing —
    no primitive operation or grammar procedure ever decreases it — but it
    is not bounded by the token-sequence length: reads past the end are
    served by the synthetic eof of `current` and the cursor may move beyond
    the length (see the counterexample). -/
theorem claim_C4_amended :
    (∀ s : PState, s.pos ≤ (advance s).pos) ∧
    (∀ (msg : String) (s : PState), s.pos ≤ (error msg s).pos) ∧
    (∀ (tks : List Token) (k : String) (l : Option String) (s : PState),
      s.pos ≤ (expect tks k l s).pos) ∧
    (∀ (tks : List Token) (s : PState), s.pos ≤ (Rat25S tks s).val.pos) ∧
    (∀ (tks : List Token) (s : PState), s.pos ≤ (Statement tks s).val.pos) ∧
    (∀ (tks : List Token) (s : PState), s.pos ≤ (StatementList tks s).val.pos) ∧
    (∀ (tks : List Token) (s : PState), s.pos ≤ (Expression tks s).val.pos) :=
  ⟨fun s => Nat.le_succ s.pos,
   fun _ s => Nat.le_succ s.pos,
   fun tks k l s => by rw [expect_pos]; omega,
   fun tks s => Nat.le_of_lt (Rat25S tks s).2,
   fun tks s => Nat.le_of_lt (Statement tks s).2,
   fun tks s => (StatementList tks s).2,
   fun tks s => Nat.le_of_lt (Expression tks s).2⟩

/-- Claim C7: parsing the minimal legal program consisting of the four
    section delimiters runs the full Rat25S procedure to completion with a
    diagnostic count of zero (the cursor having consumed all five tokens). -/
theorem claim_C7_happy_path :
    parse "$$ $$ $$ $$".toList = { pos := 5, errs := 0 } := by
  have htk : tokenize "$$ $$ $$ $$".toList =
      [{ kind := "separator", lexeme := "$$", line_number := 1 },
       { kind := "separator", lexeme := "$$", line_number := 1 },
       { kind := "separator", lexeme := "$$", line_number := 1 },
       { kind := "separator", lexeme := "$$", line_number := 1 },
       { kind := "eof", lexeme := "", line_number := 1 }] := by decide
  have he1 : expectT
      [{ kind := "separator", lexeme := "$$", line_number := 1 },
           { kind := "separator", lexeme := "$$", line_number := 1 },
           { kind := "separator", lexeme := "$$", line_number := 1 },
           { kind := "separator", lexeme := "$$", line_number := 1 },
           { kind := "eof", lexeme := "", line_number := 1 }] "separator"
      (some "$$") { pos := 0, errs := 0 } = ⟨{ pos := 1, errs := 0 }, by decide⟩ :=
    Subtype.ext (by decide)
  have hf1 : OptFunctionDefinitions
      [{ kind := "separator", lexeme := "$$", line_number := 1 },
           { kind := "separator", lexeme := "$$", line_number := 1 },
           { kind := "separator", lexeme := "$$", line_number := 1 },
           { kind := "separator", lexeme := "$$", line_number := 1 },
           { kind := "eof", lexeme := "", line_number := 1 }]
      { pos := 1, errs := 0 } = ⟨{ pos := 1, errs := 0 }, by decide⟩ :=
    Subtype.ext (by rw [OptFunctionDefinitions]; decide)
  have he2 : expectT
      [{ kind := "separator", lexeme := "$$", line_number := 1 },
           { kind := "separator", lexeme := "$$", line_number := 1 },
           { kind := "separator", lexeme := "$$", line_number := 1 },
           { kind := "separator", lexeme := "$$", line_number := 1 },
           { kind := "eof", lexeme := "", line_number := 1 }] "separator"
      (some "$$") { pos := 1, errs := 0 } = ⟨{ pos := 2, errs := 0 }, by decide⟩ :=
    Subtype.ext (by decide)
  have hf2 : OptDeclarationList
      [{ kind := "separator", lexeme := "$$", line_number := 1 },
           { kind := "separator", lexeme := "$$", line_number := 1 },
           { kind := "separator", lexeme := "$$", line_number := 1 },
           { kind := "separator", lexeme := "$$", line_number := 1 },
           { kind := "eof", lexeme := "", line_number := 1 }]
      { pos := 2, errs := 0 } = ⟨{ pos := 2, errs := 0 }, by decide⟩ :=
    Subtype.ext (by rw [OptDeclarationList]; decide)
  have he3 : expectT
      [{ kind := "separator", lexeme := "$$", line_number := 1 },
           { kind := "separator", lexeme := "$$", line_number := 1 },
           { kind := "separator", lexeme := "$$", line_number := 1 },
           { kind := "separator", lexeme := "$$", line_number := 1 },
           { kind := "eof", lexeme := "", line_number := 1 }] "separator"
      (some "$$") { pos := 2, errs := 0 } = ⟨{ pos := 3, errs := 0 }, by decide⟩ :=
    Subtype.ext (by decide)
  have hf3 : StatementList
      [{ kind := "separator", lexeme := "$$", line_number := 1 },
           { kind := "separator", lexeme := "$$", line_number := 1 },
           { kind := "separator", lexeme := "$$", line_number := 1 },
           { kind := "separator", lexeme := "$$", line_number := 1 },
           { kind := "eof", lexeme := "", line_number := 1 }]
      { pos := 3, errs := 0 } = ⟨{ pos := 3, errs := 0 }, by decide⟩ :=
    Subtype.ext (by rw [StatementList]; decide)
  have he4 : expectT
      [{ kind := "separator", lexeme := "$$", line_number := 1 },
           { kind := "separator", lexeme := "$$", line_number := 1 },
           { kind := "separator", lexeme := "$$", line_number := 1 },
           { kind := "separator", lexeme := "$$", line_number := 1 },
           { kind := "eof", lexeme := "", line_number := 1 }] "separator"
      (some "$$") { pos := 3, errs := 0 } = ⟨{ pos := 4, errs := 0 }, by decide⟩ :=
    Subtype.ext (by decide)
  have he5 : expectT
      [{ kind := "separator", lexeme := "$$", line_number := 1 },
           { kind := "separator", lexeme := "$$", line_number := 1 },
           { kind := "separator", lexeme := "$$", line_number := 1 },
           { kind := "separator", lexeme := "$$", line_number := 1 },
           { kind := "eof", lexeme := "", line_number := 1 }] "eof"
      none { pos := 4, errs := 0 } = ⟨{ pos := 5, errs := 0 }, by decide⟩ :=
    Subtype.ext (by decide)
  unfold parse
  rw [htk, Rat25S]
  simp only [he1, hf1, he2, hf2, he3, hf3, he4, he5]
  rw [he1, hf1, he2, hf2, he3, hf3, he4, he5]

end Rat25
